import Mathlib

/-
Shallow embedding of src/etl_connector.py.

The program is a one-shot ETL connector: it resolves a run configuration
from environment variables, builds an HTTP session with a retry policy,
fetches JSON from each configured endpoint, normalizes the response shape
into a list of records, enriches each record with provenance metadata,
bulk-inserts the batch into MongoDB, writes a debug JSON file, and sums
the inserted counts over all endpoints, absorbing per-endpoint failures.

External effects (HTTP responses, the MongoDB driver, the filesystem) are
modelled as explicit parameters/oracles; the repository's own logic is
translated function by function.
-/

namespace Etl

/-- JSON-compatible values as produced by `response.json()` in the source.
Numbers are modelled as integers (no claim depends on numeric payload
contents).  The extra `time` constructor models the Python `datetime`
object that `transform` stores under the key "ingested_at"; it is never
produced by JSON parsing in any claim instance. -/
inductive Value : Type where
  | null : Value
  | bool (b : Bool) : Value
  | num (n : Int) : Value
  | str (s : String) : Value
  | arr (xs : List Value) : Value
  | obj (fields : List (String × Value)) : Value
  | time (t : Nat) : Value

/-- A Python dict with string keys, as an insertion-ordered association list. -/
abbrev Dict := List (String × Value)

/-- Python `k in d` followed by `d[k]`: value of the first binding of `k`. -/
def dictGet (d : Dict) (k : String) : Option Value :=
  match d with
  | [] => none
  | (k2, v) :: rest => if k2 = k then some v else dictGet rest k

/-- Python `d[k] = v`: overwrite the binding in place if the key is present
(keeping its position — dicts built by Python hold each key at most once,
so the first binding is the only one), otherwise append it. -/
def dictSet : Dict → String → Value → Dict
  | [], k, v => [(k, v)]
  | (k2, v2) :: rest, k, v =>
    if k2 = k then (k, v) :: rest else (k2, v2) :: dictSet rest k v

/-- Python `isinstance(x, list)` on an optional looked-up value: the list
when the key is present with a list value, `none` otherwise. -/
def asList : Option Value → Option (List Value)
  | some (.arr xs) => some xs
  | _ => none

/-- Source `ensure_list_payload` (src/etl_connector.py lines 95-104): a list
is returned as-is; a dict is probed for a list-valued "data", "items" or
"results" key in that order, else wrapped as a singleton; anything else
yields the empty list. -/
def ensure_list_payload : Value → List Value
  | .arr xs => xs
  | .obj fields =>
    match asList (dictGet fields "data") with
    | some xs => xs
    | none =>
      match asList (dictGet fields "items") with
      | some xs => xs
      | none =>
        match asList (dictGet fields "results") with
        | some xs => xs
        | none => [.obj fields]
  | _ => []

/-- Normalization as the specification words it (section 4.3): "a JSON array
is used as-is; a JSON object containing a list-valued field named data,
items, or results (checked in that precedence order) yields that field's
list; any other JSON object is a single one-element sequence; any other
JSON type is normalized to an empty sequence".  Written from the spec, to
be compared with `ensure_list_payload` from the source. -/
def normalize_shape_spec (v : Value) : List Value :=
  match v with
  | .arr xs => xs
  | .obj fields =>
    match ["data", "items", "results"].findSome? (fun k => asList (dictGet fields k)) with
    | some xs => xs
    | none => [.obj fields]
  | _ => []

/-- Whitespace characters stripped by Python's `str.strip()` with no
arguments (ASCII range; the claims only involve ASCII input). -/
def pyIsSpace (c : Char) : Bool :=
  c = ' ' || c = '\t' || c = '\n' || c = '\r' || c = '\x0b' || c = '\x0c'

/-- Python `s.strip()`: remove leading and trailing whitespace. -/
def pyStrip (s : String) : String :=
  String.mk (((s.toList.dropWhile pyIsSpace).reverse.dropWhile pyIsSpace).reverse)

/-- Python `s.lstrip("/")`: remove every leading slash. -/
def pyLstripSlash (s : String) : String :=
  String.mk (s.toList.dropWhile (fun c => c = '/'))

/-- Python `s.rstrip("/")`: remove every trailing slash. -/
def pyRstripSlash (s : String) : String :=
  String.mk ((s.toList.reverse.dropWhile (fun c => c = '/')).reverse)

/-- Helper for Python `s.split(",")`: cut at every comma, keeping empty
pieces; the accumulator holds the current piece reversed. -/
def pySplitCommaAux : List Char → List Char → List String
  | [], acc => [String.mk acc.reverse]
  | c :: cs, acc =>
    if c = ',' then String.mk acc.reverse :: pySplitCommaAux cs []
    else pySplitCommaAux cs (c :: acc)

/-- Python `s.split(",")`. -/
def pySplitComma (s : String) : List String :=
  pySplitCommaAux s.toList []

/-- Source `load_config` line 36: the endpoint list comprehension
`[e.strip().lstrip("/") for e in csv.split(",") if e.strip()]`. -/
def parse_endpoints (csv : String) : List String :=
  ((pySplitComma csv).filter (fun e => pyStrip e ≠ "")).map
    (fun e => pyLstripSlash (pyStrip e))

/-- Source `build_auth_headers` (lines 85-92).  Python truthiness of a
string is non-emptiness; the header mapping has at most one entry.
The source computes `value = f"... ...".strip()` and then overwrites it
with the bare key when the prefix is empty. -/
def build_auth_headers (api_key : String) (header_name : String) (pre : String) :
    List (String × String) :=
  if api_key = "" then []
  else
    let value := pyStrip (pre ++ " " ++ api_key)
    let value := if pre = "" then api_key else value
    [(header_name, value)]

/-- Resolved run configuration, source `load_config` return dict (lines
52-62).  The auth-value-prefix field is named `api_auth_pre` here (the
source key ends in a word Lean reserves). -/
structure RunConfig where
  api_base_url : String
  api_endpoints : List String
  api_key : String
  api_auth_header : String
  api_auth_pre : String
  mongo_uri : String
  mongo_db : String
  mongo_collection : String
  connector_name : String

/-- Source `load_config` (lines 31-62), parameterized over the process
environment (`env k = none` models an unset variable; `os.getenv` returns
the default exactly then) and over the standard library's
`urlparse(...).hostname` (third-party parsing not part of this repository;
`hostname u = none` models an unparseable host, and Python also treats an
empty hostname string as falsy). -/
def load_config (env : String → Option String) (hostname : String → Option String) :
    RunConfig :=
  let api_base_url := pyRstripSlash ((env "API_BASE_URL").getD "https://jsonplaceholder.typicode.com")
  let api_endpoints := parse_endpoints ((env "API_ENDPOINTS").getD "posts,comments,users")
  let api_key := (env "API_KEY").getD ""
  let api_auth_header := (env "API_AUTH_HEADER").getD "Authorization"
  let api_auth_pre := (env "API_AUTH_PREFIX").getD "Bearer"
  let mongo_uri := (env "MONGO_URI").getD "mongodb://localhost:27017"
  let mongo_db := (env "MONGO_DB").getD "etl_db"
  let mongo_collection0 := (env "MONGO_COLLECTION").getD ""
  let connector_name :=
    match hostname api_base_url with
    | some h => if h = "" then "connector" else h.replace "." "_"
    | none => "connector"
  let mongo_collection :=
    if mongo_collection0 = "" then connector_name ++ "_raw" else mongo_collection0
  { api_base_url := api_base_url
    api_endpoints := api_endpoints
    api_key := api_key
    api_auth_header := api_auth_header
    api_auth_pre := api_auth_pre
    mongo_uri := mongo_uri
    mongo_db := mongo_db
    mongo_collection := mongo_collection
    connector_name := connector_name }

/-- Configuration of the urllib3 `Retry` object built at source lines 67-73.
The float `backoff_factor=1.5` is the exact rational 3/2. -/
structure RetryPolicy where
  total : Nat
  backoff_factor : ℚ
  status_forcelist : List Nat
  allowed_methods : List String
  raise_on_status : Bool

/-- The observable configuration of the `requests.Session` built by the
source: its retry policy, the transport schemes the retrying adapter is
mounted on, and its default headers. -/
structure Session where
  retry : RetryPolicy
  mounted_schemes : List String
  headers : List (String × String)

/-- Source `build_session_with_retries` (lines 65-82), as the configuration
it installs. -/
def build_session_with_retries : Session :=
  { retry :=
      { total := 5
        backoff_factor := 3 / 2
        status_forcelist := [429, 500, 502, 503, 504]
        allowed_methods := ["GET", "POST", "PUT", "DELETE", "PATCH"]
        raise_on_status := false }
    mounted_schemes := ["http://", "https://"]
    headers :=
      [("Accept", "application/json"),
       ("Content-Type", "application/json"),
       ("User-Agent", "etl-connector/1.0")] }

/-- Errors a pipeline step can raise, corresponding to the exceptions of
the source: `requests.HTTPError` from `raise_for_status`, a JSON decode
failure from `response.json()`, and the `TypeError` that `dict(record)`
raises on a non-mapping record in `transform`. -/
inductive EtlError : Type where
  | httpError (status : Nat)
  | parseError
  | typeError

/-- Ingestion timestamps (`datetime.now(timezone.utc)`), abstract ticks. -/
abbrev Timestamp := Nat

/-- Body of the `for record in records` loop of source `transform` (lines
144-149): `doc = dict(record)` then two key assignments on the fresh copy. -/
def enrich (ep : String) (now : Timestamp) (record : Dict) : Dict :=
  dictSet (dictSet record "ingested_at" (.time now)) "source_endpoint" (.str ep)

/-- One iteration of the transform loop: `dict(record)` raises `TypeError`
on a non-mapping record, otherwise the enriched copy is produced. -/
def transform_one (ep : String) (now : Timestamp) : Value → Except EtlError Value
  | .obj fields => .ok (.obj (enrich ep now fields))
  | _ => .error .typeError

/-- Source `transform` (lines 141-150) on the values that flow into it at
runtime (`ensure_list_payload` can return non-dict list elements, on which
`dict(record)` raises).  The single `now` argument models the one
`datetime.now(timezone.utc)` call made before the loop. -/
def transform (records : List Value) (ep : String) (now : Timestamp) :
    Except EtlError (List Value) :=
  records.mapM (transform_one ep now)

/-- Whole-batch database failure (e.g. the connection failure of the spec). -/
inductive DbError : Type where
  | connectionFailure

/-- Behavior of the document store for one bulk insert: either the whole
batch fails (connection-level error), or each document position is
individually acknowledged or rejected. -/
inductive DbBehavior : Type where
  | connFail : DbBehavior
  | perDoc (ack : Nat → Bool) : DbBehavior

/-- Modelled from the spec: pymongo's `collection.insert_many(documents,
ordered=False)` is third-party driver code, not part of this repository.
Section 4.5 of the specification describes the unordered bulk insert it
performs: it "continues inserting remaining documents even if some
individual inserts fail", per-document failures are not escalated and only
the acknowledged documents are reported, while "a failure affecting the
entire batch (e.g., connection failure) propagates as an error".  The
returned list is `result.inserted_ids` (positions of acknowledged
documents). -/
def insert_many_unordered (db : DbBehavior) (docs : List Value) :
    Except DbError (List Nat) :=
  match db with
  | .connFail => .error .connectionFailure
  | .perDoc ack => .ok ((List.range docs.length).filter ack)

/-- Source `load_to_mongo` (lines 153-164): an empty batch returns 0 before
any client is constructed; otherwise the driver's bulk insert runs and the
length of `result.inserted_ids` is returned, with any driver error
propagating unchanged (the source installs no handler). -/
def load_to_mongo (db : DbBehavior) (docs : List Value) : Except DbError Nat :=
  if docs.isEmpty then .ok 0
  else
    match insert_many_unordered db docs with
    | .error e => .error e
    | .ok ids => .ok ids.length

/-- Final HTTP outcome of `session.get` for one request: the status code of
the last attempt (retries are internal to the session) and the parsed JSON
body, `none` when the body is not valid JSON. -/
structure HttpResponse where
  status_code : Nat
  body : Option Value

/-- The `response.ok` property of the requests library: true unless
`raise_for_status` would raise, which happens exactly for 4xx/5xx. -/
def respOk (r : HttpResponse) : Bool :=
  if 400 ≤ r.status_code ∧ r.status_code < 600 then false else true

/-- Extraction metadata dict built at source lines 133-137. -/
structure FetchMeta where
  status_code : Nat
  url : String
  record_count : Nat

/-- Source `extract` (lines 107-138), parameterized over the session's
final response for the request.  The URL join of line 113 is
`urljoin(base ++ "/", endpoint)`, which for the relative endpoint paths
this program produces is concatenation.  A non-ok final status raises
`HTTPError` (line 124); an unparseable body raises the decode error
(lines 126-130); otherwise the body is normalized and returned with
metadata. -/
def extract (resp : HttpResponse) (base ep : String) :
    Except EtlError (List Value × FetchMeta) :=
  if respOk resp then
    match resp.body with
    | none => .error .parseError
    | some data =>
      .ok (ensure_list_payload data,
        { status_code := resp.status_code, url := base ++ "/" ++ ep,
          record_count := (ensure_list_payload data).length })
  else .error (.httpError resp.status_code)

/-- External world one run interacts with: the final HTTP response per
endpoint, the document store's behavior, and whether the debug-file write
for an endpoint succeeds. -/
structure World where
  resp : String → HttpResponse
  db : DbBehavior
  debugOk : String → Bool

/-- Body of the per-endpoint `try` block of source `run` (lines 184-198):
extract, transform, load; `total_inserted += inserted` (line 192) runs
before `write_debug_json` (line 195), so a debug-write failure is caught
only after the endpoint's count is already accumulated — the contribution
is the inserted count whenever the load succeeded, and 0 whenever an
earlier step raised. -/
def process_endpoint (w : World) (cfg : RunConfig) (now : Timestamp) (ep : String) : Nat :=
  match extract (w.resp ep) cfg.api_base_url ep with
  | .error _ => 0
  | .ok (records, _meta) =>
    match transform records ep now with
    | .error _ => 0
    | .ok docs =>
      match load_to_mongo w.db docs with
      | .error _ => 0
      | .ok n => n

/-- Inserted count of one endpoint when its Extract, Transform and Load all
succeeded, `none` when any of them raised. -/
def inserted_of (w : World) (cfg : RunConfig) (now : Timestamp) (ep : String) : Option Nat :=
  match extract (w.resp ep) cfg.api_base_url ep with
  | .error _ => none
  | .ok (records, _meta) =>
    match transform records ep now with
    | .error _ => none
    | .ok docs =>
      match load_to_mongo w.db docs with
      | .error _ => none
      | .ok n => some n

/-- Source `run` (lines 177-200): the final `total_inserted` of the loop
over `cfg.api_endpoints`, every exception being caught per endpoint. -/
def run (w : World) (cfg : RunConfig) (now : Timestamp) : Nat :=
  (cfg.api_endpoints.map (process_endpoint w cfg now)).sum

/-- Object store for the aliasing/mutation analysis of `transform`: Python
dict objects live in heap cells, and a record reference is a cell index. -/
structure Heap where
  cells : List Dict

/-- Source `transform` at the level of heap references: for each input
reference, `doc = dict(record)` allocates a fresh cell holding a copy
(line 146), the two key assignments of lines 147-148 mutate only that
fresh cell (folded into `enrich`), and the fresh reference is appended to
the output list.  Input cells are never written. -/
def transformH (ep : String) (now : Timestamp) : Heap → List Nat → Heap × List Nat
  | _h, [] => (_h, [])
  | _h, r :: rs =>
    let doc := enrich ep now (_h.cells.getD r [])
    let addr := _h.cells.length
    let res := transformH ep now ⟨_h.cells ++ [doc]⟩ rs
    (res.1, addr :: res.2)

/-- Concrete two-endpoint scenario of the specification's section 8: the
first endpoint's final HTTP status is 500 (an `HTTPError` after retries),
the second returns a JSON array of three records, and the store
acknowledges every document. -/
def demo_world : World :=
  { resp := fun ep =>
      if ep = "alpha" then { status_code := 500, body := some .null }
      else
        { status_code := 200,
          body := some (.arr [.obj [("id", .num 1)], .obj [("id", .num 2)], .obj [("id", .num 3)]]) }
    db := .perDoc (fun _ => true)
    debugOk := fun _ => true }

/-- Configuration for the two-endpoint scenario. -/
def demo_cfg : RunConfig :=
  { api_base_url := "https://api.example.com"
    api_endpoints := ["alpha", "beta"]
    api_key := ""
    api_auth_header := "Authorization"
    api_auth_pre := "Bearer"
    mongo_uri := "mongodb://localhost:27017"
    mongo_db := "etl_db"
    mongo_collection := "api_example_com_raw"
    connector_name := "api_example_com" }

/-! Helper lemmas about the dict operations. -/

theorem dictGet_append (d l : Dict) (k : String) :
    dictGet (d ++ l) k =
      match dictGet d k with
      | some v => some v
      | none => dictGet l k := by
  induction d with
  | nil => simp [dictGet]
  | cons p rest ih =>
    obtain ⟨k2, v2⟩ := p
    by_cases hp : k2 = k <;> simp [dictGet, hp, ih]

theorem dictGet_dictSet_self (d : Dict) (k : String) (v : Value) :
    dictGet (dictSet d k v) k = some v := by
  induction d with
  | nil => simp [dictSet, dictGet]
  | cons p rest ih =>
    obtain ⟨k2, v2⟩ := p
    by_cases hp : k2 = k
    · subst hp
      simp [dictSet, dictGet]
    · simp [dictSet, dictGet, hp, ih]

theorem dictGet_dictSet_ne (d : Dict) (k k2 : String) (v : Value) (hne : k2 ≠ k) :
    dictGet (dictSet d k v) k2 = dictGet d k2 := by
  induction d with
  | nil =>
    have hk2 : ¬(k = k2) := fun hh => hne hh.symm
    simp [dictSet, dictGet, hk2]
  | cons p rest ih =>
    obtain ⟨k3, v3⟩ := p
    by_cases h3 : k3 = k
    · subst h3
      have hk32 : ¬(k3 = k2) := fun hh => hne hh.symm
      simp [dictSet, dictGet, hk32]
    · by_cases h32 : k3 = k2
      · subst h32
        simp [dictSet, dictGet, h3]
      · simp [dictSet, dictGet, h3, h32, ih]

theorem dictGet_enrich_ingested (ep : String) (now : Timestamp) (d : Dict) :
    dictGet (enrich ep now d) "ingested_at" = some (.time now) := by
  unfold enrich
  rw [dictGet_dictSet_ne _ _ _ _ (by decide)]
  exact dictGet_dictSet_self _ _ _

theorem dictGet_enrich_source (ep : String) (now : Timestamp) (d : Dict) :
    dictGet (enrich ep now d) "source_endpoint" = some (.str ep) :=
  dictGet_dictSet_self _ _ _

/-- C3: extraction normalizes every parsed JSON body as the spec states: a
JSON array is returned as-is in order; a JSON object with a list-valued
field named data, items, or results (in that precedence order) yields that
field's list; any other JSON object yields the singleton sequence of that
object; any other JSON value yields the empty sequence.  The source's
`ensure_list_payload` coincides with the spec-worded normalization on
every value. -/
theorem ensure_list_payload_matches_spec (v : Value) :
    ensure_list_payload v = normalize_shape_spec v := by
  cases v with
  | obj fields =>
    rcases h1 : asList (dictGet fields "data") with _ | xs1 <;>
      rcases h2 : asList (dictGet fields "items") with _ | xs2 <;>
        rcases h3 : asList (dictGet fields "results") with _ | xs3 <;>
          simp [ensure_list_payload, normalize_shape_spec, List.findSome?_cons, h1, h2, h3]
  | null => rfl
  | bool b => rfl
  | num n => rfl
  | str s => rfl
  | arr xs => rfl
  | time t => rfl

/-- C4 counterexample: the claim says no entry of the resulting endpoint
list is the empty string, but the source filters on emptiness after
whitespace stripping and BEFORE slash stripping, so the input "/" yields
the singleton list containing the empty string. -/
theorem parse_endpoints_empty_entry :
    parse_endpoints "/" = [""] ∧ "" ∈ parse_endpoints "/" := by
  constructor
  · rfl
  · rw [show parse_endpoints "/" = [""] from rfl]
    exact List.mem_singleton.mpr rfl

/-- C4 amended: splitting is on commas; an entry is dropped exactly when it
is empty after whitespace trimming (before slash stripping), and each kept
entry is whitespace-trimmed then stripped of leading slashes, preserving
order and duplicates; the spec's example " posts, /comments ,,users "
yields exactly ["posts", "comments", "users"]; but an entry consisting
only of whitespace and slashes survives the filter and becomes the empty
string, so the result can contain empty entries. -/
theorem parse_endpoints_amended :
    parse_endpoints " posts, /comments ,,users " = ["posts", "comments", "users"] ∧
    parse_endpoints "posts,posts" = ["posts", "posts"] ∧
    ∀ csv e, e ∈ parse_endpoints csv →
      ∃ raw, raw ∈ pySplitComma csv ∧ pyStrip raw ≠ "" ∧ e = pyLstripSlash (pyStrip raw) := by
  refine ⟨rfl, rfl, ?_⟩
  intro csv e he
  unfold parse_endpoints at he
  rcases List.mem_map.mp he with ⟨raw, hraw, rfl⟩
  rcases List.mem_filter.mp hraw with ⟨hmem, hne⟩
  exact ⟨raw, hmem, by simpa using hne, rfl⟩

/-- Concrete instance of the amended C4 statement, discharging its
hypothesis at the entry "comments" of the spec's example input. -/
theorem parse_endpoints_amended_witness :
    ∃ raw, raw ∈ pySplitComma " posts, /comments ,,users " ∧ pyStrip raw ≠ "" ∧
      "comments" = pyLstripSlash (pyStrip raw) :=
  parse_endpoints_amended.2.2 " posts, /comments ,,users " "comments" (by decide)

/-- C6 counterexample: the claim says a non-empty key with a non-empty
prefix always yields the header value "prefix key" (their space-separated
concatenation), but the source strips surrounding whitespace from that
concatenation: with key "abc" and the non-empty prefix " " the emitted
value is "abc", not "  abc". -/
theorem build_auth_headers_strips :
    build_auth_headers "abc" "Authorization" " " = [("Authorization", "abc")] ∧
    build_auth_headers "abc" "Authorization" " " ≠ [("Authorization", " " ++ " " ++ "abc")] := by
  constructor
  · rfl
  · decide

/-- C6 amended: an empty key yields no auth header; a non-empty key with an
empty prefix yields the bare key as the value; a non-empty key with a
non-empty prefix yields one header whose value is the whitespace-trimmed
space-separated concatenation of prefix and key (equal to "prefix key"
itself whenever that concatenation carries no surrounding whitespace, as
in the spec's "Bearer abc" example). -/
theorem build_auth_headers_amended (key hname pre : String) :
    (key = "" → build_auth_headers key hname pre = []) ∧
    (key ≠ "" → pre = "" → build_auth_headers key hname pre = [(hname, key)]) ∧
    (key ≠ "" → pre ≠ "" → build_auth_headers key hname pre =
      [(hname, pyStrip (pre ++ " " ++ key))]) := by
  refine ⟨?_, ?_, ?_⟩
  · intro hk
    simp [build_auth_headers, hk]
  · intro hk hp
    simp [build_auth_headers, hk, hp]
  · intro hk hp
    simp [build_auth_headers, hk, hp]

/-- Concrete instance of the amended C6 statement: the spec's example
key "abc", prefix "Bearer" yields the value "Bearer abc". -/
theorem build_auth_headers_amended_witness :
    build_auth_headers "abc" "Authorization" "Bearer" = [("Authorization", "Bearer abc")] :=
  ((build_auth_headers_amended "abc" "Authorization" "Bearer").2.2 (by decide) (by decide)).trans
    (by decide)

/-- C7: the session's retry policy is configured with 5 for its total
budget, exponential backoff factor 1.5 (the exact rational 3/2), and is
triggered exactly on status codes 429, 500, 502, 503, 504 and exactly on
the methods GET, POST, PUT, DELETE, PATCH. -/
theorem retry_policy_configuration :
    build_session_with_retries.retry.total = 5 ∧
    build_session_with_retries.retry.backoff_factor = 3 / 2 ∧
    (∀ c : Nat, c ∈ build_session_with_retries.retry.status_forcelist ↔
      (c = 429 ∨ c = 500 ∨ c = 502 ∨ c = 503 ∨ c = 504)) ∧
    (∀ m : String, m ∈ build_session_with_retries.retry.allowed_methods ↔
      (m = "GET" ∨ m = "POST" ∨ m = "PUT" ∨ m = "DELETE" ∨ m = "PATCH")) := by
  refine ⟨rfl, rfl, ?_, ?_⟩ <;> intro x <;> simp [build_session_with_retries]

theorem append_raw_ne_empty (s : String) : s ++ "_raw" ≠ "" := by
  intro h
  have h2 : (s ++ "_raw").length = ("" : String).length := congrArg String.length h
  rw [String.length_append] at h2
  have h3 : ("_raw" : String).length = 4 := rfl
  have h4 : ("" : String).length = 0 := rfl
  omega

/-- C8: for every environment and hostname-parse outcome, the resolved
collection name is non-empty; it equals the explicitly configured name
when one is set, and otherwise defaults to the connector name followed by
"_raw", where the connector name is the parsed hostname with dots replaced
by underscores, or the literal "connector" when no hostname parses. -/
theorem collection_name_nonempty (env : String → Option String)
    (hostname : String → Option String) :
    (load_config env hostname).mongo_collection ≠ "" ∧
    ((env "MONGO_COLLECTION").getD "" ≠ "" →
      (load_config env hostname).mongo_collection = (env "MONGO_COLLECTION").getD "") ∧
    ((env "MONGO_COLLECTION").getD "" = "" →
      (load_config env hostname).mongo_collection =
        (load_config env hostname).connector_name ++ "_raw") ∧
    ((load_config env hostname).connector_name =
      match hostname (load_config env hostname).api_base_url with
      | some h => if h = "" then "connector" else h.replace "." "_"
      | none => "connector") := by
  refine ⟨?_, ?_, ?_, ?_⟩
  · by_cases hmc : (env "MONGO_COLLECTION").getD "" = ""
    · rw [show (load_config env hostname).mongo_collection =
          (load_config env hostname).connector_name ++ "_raw" by simp [load_config, hmc]]
      exact append_raw_ne_empty _
    · simp [load_config, hmc]
  · intro hmc
    simp [load_config, hmc]
  · intro hmc
    simp [load_config, hmc]
  · simp [load_config]

/-- Concrete instance of C8: with no environment variables set and an
unparseable hostname, the default collection name "connector_raw" is
produced and is non-empty. -/
theorem collection_name_nonempty_witness :
    (load_config (fun _ => none) (fun _ => none)).mongo_collection = "connector" ++ "_raw" ∧
    (load_config (fun _ => none) (fun _ => none)).mongo_collection ≠ "" := by
  refine ⟨?_, (collection_name_nonempty (fun _ => none) (fun _ => none)).1⟩
  have h := (collection_name_nonempty (fun _ => none) (fun _ => none)).2.2.1 rfl
  rw [h]
  rfl

theorem transform_one_ok (ep : String) (now : Timestamp) (r y : Value)
    (h : transform_one ep now r = .ok y) :
    ∃ fields, r = .obj fields ∧ y = .obj (enrich ep now fields) := by
  cases r with
  | obj fields =>
    simp only [transform_one] at h
    cases h
    exact ⟨fields, rfl, rfl⟩
  | null => simp [transform_one] at h
  | bool b => simp [transform_one] at h
  | num n => simp [transform_one] at h
  | str s => simp [transform_one] at h
  | arr xs => simp [transform_one] at h
  | time t => simp [transform_one] at h

/-- C9: whenever transform succeeds, every output record is an object
whose "ingested_at" field is the batch timestamp and whose
"source_endpoint" field is the given endpoint, regardless of whether the
input record already carried those fields — the enrichment values always
overwrite the originals. -/
theorem transform_overwrites_provenance (records : List Value) (ep : String) (now : Timestamp)
    (out : List Value) (hout : transform records ep now = .ok out) :
    ∀ r ∈ out, ∃ fields, r = .obj fields ∧
      dictGet fields "ingested_at" = some (.time now) ∧
      dictGet fields "source_endpoint" = some (.str ep) := by
  induction records generalizing out with
  | nil =>
    unfold transform at hout
    rw [List.mapM_nil] at hout
    have hempty : ([] : List Value) = out := by
      simpa [pure, Except.pure] using hout
    subst hempty
    intro r hr
    exact absurd hr (List.not_mem_nil r)
  | cons rec rest ih =>
    unfold transform at hout
    rw [List.mapM_cons] at hout
    cases hone : transform_one ep now rec with
    | error e =>
      rw [hone] at hout
      simp [Bind.bind, Except.bind] at hout
    | ok y =>
      rw [hone] at hout
      cases hrest : List.mapM (transform_one ep now) rest with
      | error e =>
        rw [hrest] at hout
        simp [Bind.bind, Except.bind] at hout
      | ok ys =>
        rw [hrest] at hout
        have hout2 : y :: ys = out := by
          simpa [Bind.bind, Except.bind, pure, Except.pure] using hout
        subst hout2
        intro r hr
        rcases List.mem_cons.mp hr with hr1 | hr2
        · subst hr1
          obtain ⟨fields, _, hy⟩ := transform_one_ok ep now rec r hone
          exact ⟨enrich ep now fields, hy,
            dictGet_enrich_ingested ep now fields, dictGet_enrich_source ep now fields⟩
        · exact ih ys (by unfold transform; exact hrest) r hr2

/-- Concrete instance of C9: a record that already carries an
"ingested_at" field has it overwritten by the batch timestamp. -/
theorem transform_overwrites_provenance_witness :
    ∃ fields, Value.obj (enrich "posts" 7 [("ingested_at", Value.null)]) = .obj fields ∧
      dictGet fields "ingested_at" = some (.time 7) ∧
      dictGet fields "source_endpoint" = some (.str "posts") :=
  transform_overwrites_provenance [.obj [("ingested_at", Value.null)]] "posts" 7
    [.obj (enrich "posts" 7 [("ingested_at", Value.null)])] rfl
    (Value.obj (enrich "posts" 7 [("ingested_at", Value.null)]))
    (List.mem_singleton.mpr rfl)

/-- C10: whenever extraction succeeds, the reported record_count equals the
length of the returned record sequence; and the normalization is total —
for every parsed JSON body whatsoever (any shape), extraction succeeds and
returns the normalized sequence with matching count. -/
theorem extract_record_count (resp : HttpResponse) (base ep : String) :
    (∀ recs meta, extract resp base ep = .ok (recs, meta) → meta.record_count = recs.length) ∧
    (∀ data, respOk resp = true → resp.body = some data →
      extract resp base ep = .ok (ensure_list_payload data,
        { status_code := resp.status_code, url := base ++ "/" ++ ep,
          record_count := (ensure_list_payload data).length })) := by
  constructor
  · intro recs meta h
    unfold extract at h
    by_cases hok : respOk resp = true
    · rw [if_pos hok] at h
      cases hbody : resp.body with
      | none =>
        rw [hbody] at h
        simp at h
      | some data =>
        rw [hbody] at h
        simp only [Except.ok.injEq, Prod.mk.injEq] at h
        obtain ⟨h1, h2⟩ := h
        subst h1
        subst h2
        rfl
    · rw [if_neg hok] at h
      simp at h
  · intro data hok hbody
    unfold extract
    rw [if_pos hok, hbody]

/-- Concrete instance of C10 at a successful array response. -/
theorem extract_record_count_witness :
    extract { status_code := 200, body := some (.arr [.num 1, .num 2]) } "b" "e" =
      .ok (ensure_list_payload (.arr [.num 1, .num 2]),
        { status_code := 200, url := "b" ++ "/" ++ "e",
          record_count := (ensure_list_payload (.arr [.num 1, .num 2])).length }) :=
  (extract_record_count { status_code := 200, body := some (.arr [.num 1, .num 2]) } "b" "e").2
    (.arr [.num 1, .num 2]) rfl rfl

/-- C1: for every non-empty document list, per-document failures do not
abort the batch and are not escalated — the loader returns the count of
acknowledged documents whenever the store accepts the batch at the
connection level, whatever subset of documents the store acknowledges;
only a whole-batch failure (connection failure) propagates as an error. -/
theorem load_partial_failure (docs : List Value) (hne : docs ≠ []) (ack : Nat → Bool) :
    load_to_mongo (.perDoc ack) docs = .ok ((List.range docs.length).filter ack).length ∧
    load_to_mongo .connFail docs = .error .connectionFailure := by
  have hni : docs.isEmpty = false := by
    cases docs with
    | nil => exact absurd rfl hne
    | cons a l => rfl
  constructor <;> simp [load_to_mongo, insert_many_unordered, hni]

/-- Concrete instance of C1: a two-document batch of which the store
acknowledges only the first yields an inserted count of 1 and no error,
while a connection failure on the same batch propagates. -/
theorem load_partial_failure_witness :
    load_to_mongo (.perDoc (fun n => n == 0)) [Value.obj [], Value.null] = .ok 1 ∧
    load_to_mongo .connFail [Value.obj [], Value.null] = .error .connectionFailure := by
  have h := load_partial_failure [Value.obj [], Value.null] (by simp) (fun n => n == 0)
  exact ⟨h.1.trans rfl, h.2⟩

theorem process_endpoint_eq_inserted (w : World) (cfg : RunConfig) (now : Timestamp)
    (ep : String) :
    process_endpoint w cfg now ep = (inserted_of w cfg now ep).getD 0 := by
  unfold process_endpoint inserted_of
  cases h1 : extract (w.resp ep) cfg.api_base_url ep with
  | error e => rfl
  | ok p =>
    obtain ⟨records, meta⟩ := p
    show (match transform records ep now with
        | Except.error _ => 0
        | Except.ok docs =>
          match load_to_mongo w.db docs with
          | Except.error _ => 0
          | Except.ok n => n) =
      (Option.getD
        (match transform records ep now with
          | Except.error _ => none
          | Except.ok docs =>
            match load_to_mongo w.db docs with
            | Except.error _ => none
            | Except.ok n => some n) 0)
    cases h2 : transform records ep now with
    | error e => rfl
    | ok docs =>
      show (match load_to_mongo w.db docs with
          | Except.error _ => 0
          | Except.ok n => n) =
        (Option.getD
          (match load_to_mongo w.db docs with
            | Except.error _ => none
            | Except.ok n => some n) 0)
      cases h3 : load_to_mongo w.db docs with
      | error e => rfl
      | ok n => rfl

/-- C2: the orchestrator total is the sum, over all configured endpoints in
order, of the inserted count of each endpoint whose Load succeeded (0 for
an endpoint where any step raised) — so a per-endpoint failure never
aborts the run; the total never depends on debug-sink outcomes; and in the
spec's two-endpoint scenario where the first endpoint raises an HttpError
and the second succeeds with 3 records inserted, the final total is 3. -/
theorem run_isolates_failures (w : World) (cfg : RunConfig) (now : Timestamp) :
    run w cfg now = (cfg.api_endpoints.map (fun ep => (inserted_of w cfg now ep).getD 0)).sum ∧
    (∀ d1 d2 : String → Bool,
      run { w with debugOk := d1 } cfg now = run { w with debugOk := d2 } cfg now) ∧
    extract (demo_world.resp "alpha") demo_cfg.api_base_url "alpha" =
      .error (.httpError 500) ∧
    inserted_of demo_world demo_cfg 0 "beta" = some 3 ∧
    run demo_world demo_cfg 0 = 3 := by
  refine ⟨?_, ?_, ?_, ?_, ?_⟩
  · have hfun : process_endpoint w cfg now = fun ep => (inserted_of w cfg now ep).getD 0 :=
      funext (process_endpoint_eq_inserted w cfg now)
    rw [run, hfun]
  · intro d1 d2
    rfl
  · rfl
  · rfl
  · rfl

theorem transformH_nil (ep : String) (now : Timestamp) (h : Heap) :
    transformH ep now h [] = (h, []) := rfl

theorem transformH_cons_fst (ep : String) (now : Timestamp) (h : Heap) (r : Nat)
    (rs : List Nat) :
    (transformH ep now h (r :: rs)).1 =
      (transformH ep now ⟨h.cells ++ [enrich ep now (h.cells.getD r [])]⟩ rs).1 := rfl

theorem transformH_cons_snd (ep : String) (now : Timestamp) (h : Heap) (r : Nat)
    (rs : List Nat) :
    (transformH ep now h (r :: rs)).2 =
      h.cells.length ::
        (transformH ep now ⟨h.cells ++ [enrich ep now (h.cells.getD r [])]⟩ rs).2 := rfl

theorem transformH_cells_extend (ep : String) (now : Timestamp) :
    ∀ (refs : List Nat) (h : Heap),
      ∃ ext, (transformH ep now h refs).1.cells = h.cells ++ ext := by
  intro refs
  induction refs with
  | nil => intro h; exact ⟨[], by simp [transformH_nil]⟩
  | cons r rs ih =>
    intro h
    obtain ⟨ext, hext⟩ := ih ⟨h.cells ++ [enrich ep now (h.cells.getD r [])]⟩
    refine ⟨enrich ep now (h.cells.getD r []) :: ext, ?_⟩
    rw [transformH_cons_fst]
    rw [hext]
    simp

theorem transformH_spec (ep : String) (now : Timestamp) :
    ∀ (refs : List Nat) (h : Heap), (∀ r ∈ refs, r < h.cells.length) →
      ((transformH ep now h refs).2.map
          (fun a => (transformH ep now h refs).1.cells.getD a []) =
        refs.map (fun r => enrich ep now (h.cells.getD r []))) ∧
      (∀ a ∈ (transformH ep now h refs).2, h.cells.length ≤ a) := by
  intro refs
  induction refs with
  | nil =>
    intro h _
    refine ⟨rfl, ?_⟩
    intro a ha
    rw [transformH_nil] at ha
    exact absurd ha (List.not_mem_nil a)
  | cons r rs ih =>
    intro h hvalid
    have hvalid2 : ∀ x ∈ rs, x < (h.cells ++ [enrich ep now (h.cells.getD r [])]).length := by
      intro x hx
      have hxlt := hvalid x (List.mem_cons_of_mem _ hx)
      rw [List.length_append]
      omega
    obtain ⟨hmap, hfresh⟩ := ih ⟨h.cells ++ [enrich ep now (h.cells.getD r [])]⟩ hvalid2
    obtain ⟨ext, hext⟩ :=
      transformH_cells_extend ep now rs ⟨h.cells ++ [enrich ep now (h.cells.getD r [])]⟩
    rw [transformH_cons_fst, transformH_cons_snd]
    constructor
    · rw [List.map_cons, List.map_cons, List.cons.injEq]
      constructor
      · have hlen : h.cells.length <
            (h.cells ++ [enrich ep now (h.cells.getD r [])]).length := by
          rw [List.length_append]
          simp
        rw [hext, List.getD_append _ _ _ _ hlen,
          List.getD_append_right _ _ _ _ (Nat.le_refl _)]
        simp
      · rw [hmap]
        refine List.map_congr_left ?_
        intro x hx
        have hxlt := hvalid x (List.mem_cons_of_mem _ hx)
        show enrich ep now ((h.cells ++ [enrich ep now (h.cells.getD r [])]).getD x []) = _
        rw [List.getD_append _ _ _ _ hxlt]
    · intro a ha
      rcases List.mem_cons.mp ha with ha1 | ha2
      · omega
      · have := hfresh a ha2
        rw [List.length_append] at this
        omega

/-- C5: transform never aliases or mutates its input — after the call
every input heap cell holds its original record unchanged, every output
reference is fresh (beyond the input heap), the output records are exactly
the enriched copies of the input records in order, and every output record
carries the single batch timestamp as "ingested_at" plus the given
endpoint as "source_endpoint". -/
theorem transform_heap_no_mutation (h : Heap) (refs : List Nat) (ep : String) (now : Timestamp)
    (hvalid : ∀ r ∈ refs, r < h.cells.length) :
    (∀ i, i < h.cells.length →
      (transformH ep now h refs).1.cells.getD i [] = h.cells.getD i []) ∧
    (∀ a ∈ (transformH ep now h refs).2, h.cells.length ≤ a) ∧
    ((transformH ep now h refs).2.map
        (fun a => (transformH ep now h refs).1.cells.getD a []) =
      refs.map (fun r => enrich ep now (h.cells.getD r []))) ∧
    (∀ a ∈ (transformH ep now h refs).2,
      dictGet ((transformH ep now h refs).1.cells.getD a []) "ingested_at" =
        some (.time now) ∧
      dictGet ((transformH ep now h refs).1.cells.getD a []) "source_endpoint" =
        some (.str ep)) := by
  obtain ⟨hmap, hfresh⟩ := transformH_spec ep now refs h hvalid
  obtain ⟨ext, hext⟩ := transformH_cells_extend ep now refs h
  refine ⟨?_, hfresh, hmap, ?_⟩
  · intro i hi
    rw [hext, List.getD_append _ _ _ _ hi]
  · intro a ha
    have hmem : (transformH ep now h refs).1.cells.getD a [] ∈
        refs.map (fun r => enrich ep now (h.cells.getD r [])) := by
      rw [← hmap]
      exact List.mem_map_of_mem _ ha
    rcases List.mem_map.mp hmem with ⟨r, _, hr⟩
    rw [← hr]
    exact ⟨dictGet_enrich_ingested ep now _, dictGet_enrich_source ep now _⟩

/-- Concrete instance of C5: a one-record heap is unchanged by the
transformation and the fresh output cell is the enriched copy. -/
theorem transform_heap_no_mutation_witness :
    (transformH "posts" 7 ⟨[[("id", Value.num 1)]]⟩ [0]).1.cells.getD 0 [] =
      [("id", Value.num 1)] ∧
    ∀ a ∈ (transformH "posts" 7 ⟨[[("id", Value.num 1)]]⟩ [0]).2, 1 ≤ a := by
  have h := transform_heap_no_mutation ⟨[[("id", Value.num 1)]]⟩ [0] "posts" 7
    (by intro r hr; simp at hr; subst hr; decide)
  exact ⟨h.1 0 (by decide), h.2.1⟩

end Etl
